import Mathlib

/-!
Verification development for the OpenChessMate web-asset pipeline
(`src/web/build/generate_pages.py`): the build-time asset compiler and the
generated runtime route matcher `findPage` (emitted into `page_router.cpp`).

Strings are modelled as `List Char`, file contents as `List Nat` (byte
values).  The deflate body produced by `zlib` and the CRC32 checksum are
external-library computations; they appear as explicit function parameters
`deflate` / `crc32`, while the gzip container written by Python's
`gzip.compress` (header with mtime, deflate body, CRC/size trailer) is
modelled concretely.
-/

/-- Python substring test `needle in hay` (`str.__contains__`). -/
def containsSub (needle : List Char) : List Char → Bool
  | [] => needle.isPrefixOf []
  | c :: rest => needle.isPrefixOf (c :: rest) || containsSub needle rest

/-- Fuel-driven worker for `replaceAll`; the fuel only bounds the recursion
depth (one unit per consumed character) and never runs out when it starts at
the length of the scanned list. -/
def replaceAllFuel (needle repl : List Char) : Nat → List Char → List Char
  | 0, l => l
  | _, [] => []
  | fuel + 1, c :: rest =>
    if needle ≠ [] ∧ needle.isPrefixOf (c :: rest) then
      repl ++ replaceAllFuel needle repl fuel (rest.drop (needle.length - 1))
    else
      c :: replaceAllFuel needle repl fuel rest

/-- Python `hay.replace(needle, repl)`: left-to-right, non-overlapping
replacement of every occurrence of `needle` by `repl`. -/
def replaceAll (needle repl hay : List Char) : List Char :=
  replaceAllFuel needle repl hay.length hay

/-- C `strchr(s, ch)` as the index of the first occurrence of `ch`. -/
def strchrIdx (ch : Char) : List Char → Option Nat
  | [] => none
  | c :: rest => if c = ch then some 0 else (strchrIdx ch rest).map (· + 1)

/-- Little-endian 4-byte encoding, as written by `struct.pack` with format
letter L for a 32-bit unsigned field. -/
def le32 (n : Nat) : List Nat :=
  [n % 256, n / 256 % 256, n / 65536 % 256, n / 16777216 % 256]

/-- The 10-byte gzip member header written by Python's
`gzip._create_simple_gzip_header` for `compresslevel=9`: magic bytes, deflate
method, empty flags, the 32-bit modification time (current wall-clock time
when `gzip.compress` is called without `mtime`), `xfl = 2`, `os = 255`. -/
def gzipHeader (mtime : Nat) : List Nat :=
  [0x1f, 0x8b, 8, 0] ++ le32 mtime ++ [2, 255]

/-- Python `gzip.compress(raw, compresslevel=9)` with header mtime `mtime`:
header, raw deflate stream of the payload, then CRC32 and size trailer.
The deflate transform and CRC32 are the external zlib computations. -/
def gzipCompress (deflate : List Nat → List Nat) (crc32 : List Nat → Nat)
    (mtime : Nat) (raw : List Nat) : List Nat :=
  gzipHeader mtime ++ (deflate raw ++ (le32 (crc32 raw) ++ le32 raw.length))

/-- The deflate payload of a gzip member: everything between the 10-byte
header and the 8-byte trailer. -/
def gzipPayload (bs : List Nat) : List Nat :=
  (bs.drop 10).take ((bs.drop 10).length - 8)

/-- Gzip decompression, given the external inflate transform. -/
def gzipDecompress (inflate : List Nat → List Nat) (bs : List Nat) : List Nat :=
  inflate (gzipPayload bs)

/-- One entry of the minified-asset directory listing: its filename, whether
it is a regular file, and its raw byte content. -/
structure FileEntry where
  name : List Char
  isFile : Bool
  content : List Nat
deriving Repr, DecidableEq

/-- The fixed extension → MIME type mapping `MIME` of the compiler. -/
def MIME : List (List Char × List Char) :=
  [(".html".toList, "text/html".toList),
   (".css".toList, "text/css".toList),
   (".js".toList, "application/javascript".toList)]

/-- MIME lookup: `ext in MIME` / `MIME[ext]`. -/
def lookupMime (ext : List Char) : Option (List Char) :=
  (MIME.find? (fun kv => kv.1 == ext)).map (fun kv => kv.2)

/-- Python `pathlib.Path.suffix`: the final component from the last dot on,
provided that dot is neither the first nor the last character. -/
def pathSuffix (name : List Char) : List Char :=
  match (strchrIdx '.' name.reverse).map (fun j => name.length - 1 - j) with
  | none => []
  | some i => if 0 < i ∧ i < name.length - 1 then name.drop i else []

/-- `f.suffix.lower()`: the lower-cased extension used for MIME lookup. -/
def extOf (name : List Char) : List Char := (pathSuffix name).map Char.toLower

/-- `symbol(name)`: uppercase the filename and turn `.` and `-` into `_`. -/
def symbolOf (name : List Char) : List Char :=
  (name.map Char.toUpper).map (fun c => if c = '.' ∨ c = '-' then '_' else c)

/-- `is_nogz(filename)`: the compression opt-out test, requiring the marker
as a dot-delimited infix. -/
def is_nogz (name : List Char) : Bool := containsSub (".nogz.".toList) name

/-- `gzip_enabled = not is_nogz(f.name)`. -/
def gzipEnabledOf (name : List Char) : Bool := !(is_nogz name)

/-- URL derivation: `index.html` maps to `/`, every other filename to `/`
followed by the filename with every occurrence of `.nogz` removed
(`f.name.replace('.nogz', '')`). -/
def urlOf (name : List Char) : List Char :=
  if name = ("index.html").toList then ("/").toList
  else '/' :: replaceAll (".nogz".toList) [] name

/-- One descriptor of the generated table: the dictionary appended to
`pages` for each qualifying file. -/
structure Page where
  url : List Char
  symbol : List Char
  data : List Nat
  len : Nat
  mime : List Char
  gzip : Bool
deriving Repr, DecidableEq

/-- The per-entry body of the compiler's loop: skip non-files, skip unknown
extensions, otherwise derive URL, compression flag, stored bytes, symbol,
length and MIME type. -/
def compilePage (deflate : List Nat → List Nat) (crc32 : List Nat → Nat)
    (mtime : Nat) (e : FileEntry) : Option Page :=
  if e.isFile = false then none
  else
    match lookupMime (extOf e.name) with
    | none => none
    | some m =>
      let gz := gzipEnabledOf e.name
      let data := if gz then gzipCompress deflate crc32 mtime e.content else e.content
      some { url := urlOf e.name,
             symbol := symbolOf e.name ++ (if gz then ("_GZ").toList else []),
             data := data,
             len := data.length,
             mime := m,
             gzip := gz }

/-- Ascending filename order, the order `sorted(WEB.iterdir())` yields for
entries of one directory (lexicographic by code point). -/
def nameLe (a b : FileEntry) : Prop := a.name ≤ b.name

instance : DecidableRel nameLe :=
  fun a b => inferInstanceAs (Decidable (a.name ≤ b.name))

instance : IsTotal FileEntry nameLe := ⟨fun a b => le_total a.name b.name⟩

instance : IsTrans FileEntry nameLe := ⟨fun _ _ _ h h2 => le_trans h h2⟩

/-- `sorted(WEB.iterdir())`: a stable ascending sort of the listing. -/
def sortDir (dir : List FileEntry) : List FileEntry :=
  List.insertionSort nameLe dir

/-- `gen()`'s first loop: the ordered descriptor list built from the sorted
directory listing. -/
def genPages (deflate : List Nat → List Nat) (crc32 : List Nat → Nat)
    (mtime : Nat) (dir : List FileEntry) : List Page :=
  (sortDir dir).filterMap (compilePage deflate crc32 mtime)

/-- One emitted byte-array plus its length constant, as written into
`web_pages.cpp` (`const uint8_t SYM[]` and `const size_t SYM_LEN`). -/
structure EmittedAsset where
  symbol : List Char
  bytes : List Nat
  lenConst : Nat
deriving Repr, DecidableEq

/-- One row of the static `pages[]` table written into `page_router.cpp`:
the URL, the referenced data symbol, the referenced length symbol, the MIME
string and the gzip flag. -/
structure RouterRow where
  url : List Char
  dataSym : List Char
  lenSym : List Char
  mime : List Char
  gzip : Bool
deriving Repr, DecidableEq

/-- The `web_pages.cpp` emission loop. -/
def emitAssets (pages : List Page) : List EmittedAsset :=
  pages.map (fun p => { symbol := p.symbol, bytes := p.data, lenConst := p.len })

/-- The `page_router.cpp` table emission loop: each row references
`SYM` and `SYM_LEN` for the row's own symbol. -/
def emitRouter (pages : List Page) : List RouterRow :=
  pages.map (fun p =>
    { url := p.url, dataSym := p.symbol, lenSym := p.symbol ++ ("_LEN").toList,
      mime := p.mime, gzip := p.gzip })

/-- The three generated files, at the granularity the claims need: the
extern declarations of `web_pages.h`, the arrays and length constants of
`web_pages.cpp`, and the descriptor table of `page_router.cpp`. -/
structure Artifacts where
  webPagesH : List (List Char)
  webPagesCpp : List EmittedAsset
  pageRouterCpp : List RouterRow
deriving Repr, DecidableEq

/-- `gen()`'s emission of all three files. -/
def emitArtifacts (pages : List Page) : Artifacts :=
  { webPagesH := pages.map (fun p => p.symbol),
    webPagesCpp := emitAssets pages,
    pageRouterCpp := emitRouter pages }

/-- The whole script: if the minified directory is missing or empty, print a
warning and `exit(0)` leaving the previously generated files untouched;
otherwise regenerate all three files.  Result: the artifacts on disk
afterwards, the process exit code, and whether the warning was printed. -/
def runScript (deflate : List Nat → List Nat) (crc32 : List Nat → Nat)
    (mtime : Nat) (webExists : Bool) (dir : List FileEntry)
    (prev : Artifacts) : Artifacts × Nat × Bool :=
  if webExists = false ∨ dir = [] then (prev, 0, true)
  else (emitArtifacts (genPages deflate crc32 mtime dir), 0, false)

/-- The generated `findPage` of `page_router.cpp`: scan the table in order;
return an entry on exact URL equality, or — when the stored URL contains a
dot — on equality of the request path with the URL's prefix before its
first dot; `nullptr` (here `none`) when the scan finds nothing. -/
def findPage (path : List Char) : List Page → Option Page
  | [] => none
  | p :: rest =>
    if path = p.url then some p
    else
      match strchrIdx '.' p.url with
      | none => findPage path rest
      | some i => if path = p.url.take i then some p else findPage path rest

/-- Specification-side matching predicate: the request path equals the
stored URL, or the stored URL contains a dot and the path equals its prefix
before the first dot. -/
def pageMatches (path : List Char) (p : Page) : Bool :=
  path == p.url ||
    (p.url.contains '.' && path == p.url.takeWhile (fun c => c != '.'))

-- Evaluation checks of the embedding against the Python behaviour.
example : containsSub (".nogz".toList) ("a.nogzb.js".toList) = true := by decide
example : is_nogz ("a.nogzb.js".toList) = false := by decide
example : replaceAll (".nogz".toList) [] ("app.nogz.js".toList) = ("app.js").toList := by decide
example : urlOf ("app.nogz.js".toList) = ("/app.js").toList := by decide
example : extOf ("app.NOGZ.Js".toList) = (".js").toList := by decide
example : symbolOf ("app.nogz.js".toList) = ("APP_NOGZ_JS").toList := by decide
example : pathSuffix ("index.html".toList) = (".html").toList := by decide
example : pathSuffix ("noext".toList) = [] := by decide
example : lookupMime (".css".toList) = some ("text/css".toList) := by decide

/-! ### Helper lemmas -/

theorem gzipHeader_length (t : Nat) : (gzipHeader t).length = 10 := by
  simp [gzipHeader, le32]

theorem gzipPayload_compress (d : List Nat → List Nat) (c : List Nat → Nat)
    (t : Nat) (raw : List Nat) :
    gzipPayload (gzipCompress d c t raw) = d raw := by
  unfold gzipPayload gzipCompress
  rw [show (10 : Nat) = (gzipHeader t).length from (gzipHeader_length t).symm,
    List.drop_left]
  have hlen : (le32 (c raw) ++ le32 raw.length).length = 8 := by simp [le32]
  rw [List.length_append, hlen, Nat.add_sub_cancel, List.take_left]

theorem strchrIdx_none_not_mem {ch : Char} :
    ∀ {l : List Char}, strchrIdx ch l = none → ch ∉ l := by
  intro l
  induction l with
  | nil => intro _; simp
  | cons c rest ih =>
    intro h
    unfold strchrIdx at h
    by_cases hc : c = ch
    · simp [hc] at h
    · rw [if_neg hc] at h
      have hrest : strchrIdx ch rest = none := by
        cases hr : strchrIdx ch rest with
        | none => rfl
        | some j => rw [hr] at h; simp at h
      simp only [List.mem_cons, not_or]
      exact ⟨fun hch => hc hch.symm, ih hrest⟩

theorem strchrIdx_some_take {ch : Char} :
    ∀ {l : List Char} {i : Nat}, strchrIdx ch l = some i →
      ch ∈ l ∧ l.take i = l.takeWhile (fun c => c != ch) := by
  intro l
  induction l with
  | nil => intro i h; cases h
  | cons c rest ih =>
    intro i h
    unfold strchrIdx at h
    by_cases hc : c = ch
    · rw [if_pos hc] at h
      injection h with h
      subst h
      refine ⟨by simp [hc], ?_⟩
      simp [List.takeWhile, hc]
    · rw [if_neg hc] at h
      cases hr : strchrIdx ch rest with
      | none => rw [hr] at h; simp at h
      | some j =>
        rw [hr] at h
        have h2 : some (j + 1) = some i := h
        injection h2 with h2
        obtain ⟨hcont, htake⟩ := ih hr
        subst h2
        refine ⟨by simp [hcont], ?_⟩
        have hne : (c != ch) = true := by simp [hc]
        simp [List.takeWhile, hne, htake]

theorem findPage_cons_exact {path : List Char} {p : Page} {rest : List Page}
    (h : path = p.url) : findPage path (p :: rest) = some p := by
  unfold findPage
  rw [if_pos h]

theorem findPage_cons_nodot {path : List Char} {p : Page} {rest : List Page}
    (h1 : path ≠ p.url) (h2 : strchrIdx '.' p.url = none) :
    findPage path (p :: rest) = findPage path rest := by
  conv_lhs => unfold findPage
  rw [if_neg h1, h2]

theorem findPage_cons_dot_eq {path : List Char} {p : Page} {rest : List Page}
    {i : Nat} (h1 : path ≠ p.url) (h2 : strchrIdx '.' p.url = some i)
    (h3 : path = p.url.take i) : findPage path (p :: rest) = some p := by
  conv_lhs => unfold findPage
  rw [if_neg h1, h2]
  show (if path = p.url.take i then some p else findPage path rest) = some p
  rw [if_pos h3]

theorem findPage_cons_dot_ne {path : List Char} {p : Page} {rest : List Page}
    {i : Nat} (h1 : path ≠ p.url) (h2 : strchrIdx '.' p.url = some i)
    (h3 : path ≠ p.url.take i) :
    findPage path (p :: rest) = findPage path rest := by
  conv_lhs => unfold findPage
  rw [if_neg h1, h2]
  show (if path = p.url.take i then some p else findPage path rest)
      = findPage path rest
  rw [if_neg h3]

theorem findPage_eq_find (path : List Char) :
    ∀ table, findPage path table = List.find? (pageMatches path) table := by
  intro table
  induction table with
  | nil => rfl
  | cons p rest ih =>
    rw [List.find?_cons]
    by_cases hexact : path = p.url
    · have hm : pageMatches path p = true := by simp [pageMatches, hexact]
      simp only [hm]
      exact findPage_cons_exact hexact
    · cases hidx : strchrIdx '.' p.url with
      | none =>
        have hcont := strchrIdx_none_not_mem hidx
        have hm : pageMatches path p = false := by
          simp [pageMatches, hexact, hcont]
        simp only [hm]
        rw [findPage_cons_nodot hexact hidx]
        exact ih
      | some i =>
        obtain ⟨hcont, htake⟩ := strchrIdx_some_take hidx
        by_cases hpre : path = p.url.take i
        · have hm : pageMatches path p = true := by
            simp only [pageMatches, Bool.or_eq_true, beq_iff_eq, Bool.and_eq_true]
            right
            refine ⟨by simpa using hcont, ?_⟩
            rw [← htake]
            exact hpre
          simp only [hm]
          exact findPage_cons_dot_eq hexact hidx hpre
        · have hm : pageMatches path p = false := by
            simp only [pageMatches, Bool.or_eq_false_iff, Bool.and_eq_false_iff]
            refine ⟨beq_eq_false_iff_ne.mpr hexact, Or.inr ?_⟩
            rw [← htake]
            exact beq_eq_false_iff_ne.mpr hpre
          simp only [hm]
          rw [findPage_cons_dot_ne hexact hidx hpre]
          exact ih

theorem compilePage_some {d : List Nat → List Nat} {c : List Nat → Nat} {t : Nat}
    {e : FileEntry} {p : Page} (h : compilePage d c t e = some p) :
    e.isFile = true ∧
    (∃ m, lookupMime (extOf e.name) = some m ∧ p.mime = m) ∧
    p.url = urlOf e.name ∧
    p.gzip = gzipEnabledOf e.name ∧
    p.data = (if gzipEnabledOf e.name then gzipCompress d c t e.content
              else e.content) ∧
    p.len = p.data.length := by
  unfold compilePage at h
  by_cases hf : e.isFile = false
  · rw [if_pos hf] at h; cases h
  · rw [if_neg hf] at h
    cases hm : lookupMime (extOf e.name) with
    | none => rw [hm] at h; cases h
    | some m =>
      rw [hm] at h
      injection h with h
      subst h
      exact ⟨by revert hf; cases e.isFile <;> simp, ⟨m, rfl, rfl⟩, rfl, rfl, rfl, rfl⟩

theorem replaceAllFuel_nil_le (needle : List Char) :
    ∀ fuel l, (replaceAllFuel needle [] fuel l).length ≤ l.length := by
  intro fuel
  induction fuel with
  | zero => intro l; simp [replaceAllFuel]
  | succ f ih =>
    intro l
    cases l with
    | nil => simp [replaceAllFuel]
    | cons c rest =>
      unfold replaceAllFuel
      by_cases hp : needle ≠ [] ∧ needle.isPrefixOf (c :: rest)
      · rw [if_pos hp]
        simp only [List.nil_append, List.length_cons]
        calc (replaceAllFuel needle [] f (rest.drop (needle.length - 1))).length
            ≤ (rest.drop (needle.length - 1)).length := ih _
          _ ≤ rest.length := by simp [List.length_drop]
          _ ≤ rest.length + 1 := Nat.le_succ _
      · rw [if_neg hp]
        simp only [List.length_cons]
        exact Nat.succ_le_succ (ih rest)

theorem containsSub_nil_false {needle : List Char} (hne : needle ≠ []) :
    containsSub needle [] = false := by
  cases needle with
  | nil => exact absurd rfl hne
  | cons a as => rfl

theorem replaceAllFuel_nil_lt (needle : List Char) (hne : needle ≠ []) :
    ∀ fuel l, l.length ≤ fuel → containsSub needle l = true →
      (replaceAllFuel needle [] fuel l).length < l.length := by
  intro fuel
  induction fuel with
  | zero =>
    intro l hl hc
    have hnil : l = [] := List.eq_nil_of_length_eq_zero (Nat.le_zero.mp hl)
    subst hnil
    rw [containsSub_nil_false hne] at hc
    cases hc
  | succ f ih =>
    intro l hl hc
    cases l with
    | nil =>
      rw [containsSub_nil_false hne] at hc
      cases hc
    | cons c rest =>
      unfold replaceAllFuel
      by_cases hp : needle ≠ [] ∧ needle.isPrefixOf (c :: rest)
      · rw [if_pos hp]
        simp only [List.nil_append, List.length_cons]
        have h1 := replaceAllFuel_nil_le needle f (rest.drop (needle.length - 1))
        have h2 : (rest.drop (needle.length - 1)).length ≤ rest.length := by
          simp [List.length_drop]
        omega
      · rw [if_neg hp]
        simp only [List.length_cons]
        have hnp : needle.isPrefixOf (c :: rest) = false := by
          cases hip : needle.isPrefixOf (c :: rest) with
          | false => rfl
          | true => exact absurd ⟨hne, hip⟩ hp
        have hcr : containsSub needle rest = true := by
          unfold containsSub at hc
          rw [hnp] at hc
          simpa using hc
        have := ih rest (Nat.le_of_succ_le_succ hl) hcr
        omega

theorem replaceAll_nil_lt {needle hay : List Char} (hne : needle ≠ [])
    (hc : containsSub needle hay = true) :
    (replaceAll needle [] hay).length < hay.length :=
  replaceAllFuel_nil_lt needle hne hay.length hay le_rfl hc

theorem lookupMime_eq (ext : List Char) :
    lookupMime ext =
      if ext = (".html").toList then some (("text/html").toList)
      else if ext = (".css").toList then some (("text/css").toList)
      else if ext = (".js").toList then some (("application/javascript").toList)
      else none := by
  by_cases h1 : ext = (".html").toList
  · subst h1; decide
  · by_cases h2 : ext = (".css").toList
    · subst h2; decide
    · by_cases h3 : ext = (".js").toList
      · subst h3; decide
      · rw [if_neg h1, if_neg h2, if_neg h3]
        unfold lookupMime MIME
        have e1 : ((['.', 'h', 't', 'm', 'l'] : List Char) == ext) = false :=
          beq_eq_false_iff_ne.mpr (fun h => h1 h.symm)
        have e2 : ((['.', 'c', 's', 's'] : List Char) == ext) = false :=
          beq_eq_false_iff_ne.mpr (fun h => h2 h.symm)
        have e3 : ((['.', 'j', 's'] : List Char) == ext) = false :=
          beq_eq_false_iff_ne.mpr (fun h => h3 h.symm)
        simp [List.find?, e1, e2, e3]

theorem genPages_mem_len {d : List Nat → List Nat} {c : List Nat → Nat}
    {t : Nat} {dir : List FileEntry} {p : Page}
    (hp : p ∈ genPages d c t dir) : p.len = p.data.length := by
  obtain ⟨e, _, he⟩ := List.mem_filterMap.mp hp
  exact (compilePage_some he).2.2.2.2.2

theorem emit_forall₂ (pages : List Page)
    (h : ∀ p ∈ pages, p.len = p.data.length) :
    List.Forall₂ (fun (a : EmittedAsset) (r : RouterRow) =>
        r.dataSym = a.symbol ∧ r.lenSym = a.symbol ++ ("_LEN").toList ∧
        a.lenConst = a.bytes.length)
      (emitAssets pages) (emitRouter pages) := by
  induction pages with
  | nil => exact List.Forall₂.nil
  | cons p rest ih =>
    exact List.Forall₂.cons ⟨rfl, rfl, h p (List.mem_cons_self p rest)⟩
      (ih (fun q hq => h q (List.mem_cons_of_mem p hq)))

/-! ### Concrete demonstration inputs -/

/-- A two-file input directory, listed out of sort order on purpose. -/
def demoFooDir : List FileEntry :=
  [{ name := ("foo.js").toList, isFile := true, content := [] },
   { name := ("foo.css").toList, isFile := true, content := [] }]

/-- A single gzip-enabled asset file. -/
def demoEntry : FileEntry :=
  { name := ("app.js").toList, isFile := true, content := [1] }

/-- The descriptor the compiler produces for `demoEntry` with identity
deflate, zero CRC and header mtime 1. -/
def demoPage : Page :=
  { url := ("/app.js").toList,
    symbol := ("APP_JS_GZ").toList,
    data := gzipCompress (fun x => x) (fun _ => 0) 1 [1],
    len := (gzipCompress (fun x => x) (fun _ => 0) 1 [1]).length,
    mime := ("application/javascript").toList,
    gzip := true }

/-! ### Claim theorems -/

/-- Claim C1 (code bug): the generated artifacts are NOT byte-identical
across two compilation runs over a byte-identical input directory, because
`gzip.compress` is called without `mtime` and therefore embeds the current
wall-clock time in bytes 4–7 of every compressed asset's gzip header: for
any deflate and CRC32 transform, compiling the same one-file directory with
header mtimes 1 and 2 yields different descriptor tables. -/
theorem c1_output_embeds_timestamp :
    ∀ (deflate : List Nat → List Nat) (crc32 : List Nat → Nat),
      genPages deflate crc32 1 [demoEntry] ≠ genPages deflate crc32 2 [demoEntry] := by
  intro d c h
  have e1 : (genPages d c 1 [demoEntry]).map (fun p => p.data)
      = [gzipCompress d c 1 [1]] := rfl
  have e2 : (genPages d c 2 [demoEntry]).map (fun p => p.data)
      = [gzipCompress d c 2 [1]] := rfl
  have hmap : (genPages d c 1 [demoEntry]).map (fun p => p.data)
      = (genPages d c 2 [demoEntry]).map (fun p => p.data) :=
    congrArg (fun l => l.map (fun p => p.data)) h
  rw [e1, e2] at hmap
  injection hmap with hdata
  have t1 : (gzipCompress d c 1 [1]).take 10 = gzipHeader 1 := by
    unfold gzipCompress
    rw [show (10 : Nat) = (gzipHeader 1).length from (gzipHeader_length 1).symm,
      List.take_left]
  have t2 : (gzipCompress d c 2 [1]).take 10 = gzipHeader 2 := by
    unfold gzipCompress
    rw [show (10 : Nat) = (gzipHeader 2).length from (gzipHeader_length 2).symm,
      List.take_left]
  have hhead : gzipHeader 1 = gzipHeader 2 := by rw [← t1, ← t2, hdata]
  exact absurd hhead (by decide)

/-- Witness for C1 at concrete transforms: the identity deflate and zero CRC
already give different outputs for mtimes 1 and 2. -/
theorem c1_witness :
    genPages (fun x => x) (fun _ => 0) 1 [demoEntry]
      ≠ genPages (fun x => x) (fun _ => 0) 2 [demoEntry] :=
  c1_output_embeds_timestamp (fun x => x) (fun _ => 0)

/-- Claim C2: `findPage` returns the first descriptor in table order whose
URL matches the request path exactly or, when the URL contains a dot, whose
prefix before the first dot equals the path; and on the table compiled from
`foo.css` and `foo.js` (sorted with `/foo.css` first), `findPage "/foo"`
returns the `/foo.css` descriptor. -/
theorem c2_findPage_first_match :
    (∀ path table, findPage path table = List.find? (pageMatches path) table) ∧
    (genPages (fun x => x) (fun _ => 0) 1 demoFooDir).map (fun p => p.url)
      = [("/foo.css").toList, ("/foo.js").toList] ∧
    (findPage ("/foo".toList)
        (genPages (fun x => x) (fun _ => 0) 1 demoFooDir)).map (fun p => p.url)
      = some (("/foo.css").toList) :=
  ⟨findPage_eq_find, by decide, by decide⟩

/-- Claim C5: a request path matching no descriptor URL exactly and no
URL prefix before its first dot makes `findPage` return the not-found
sentinel (`none`); the lookup is a total pure function, so no error is
raised and the table is untouched. -/
theorem c5_miss_returns_notfound :
    ∀ path table, (∀ p ∈ table, pageMatches path p = false) →
      findPage path table = none := by
  intro path table h
  rw [findPage_eq_find]
  exact List.find?_eq_none.mpr (fun p hp => by simp [h p hp])

/-- Witness for C5: `findPage "/missing"` misses the `foo.css` / `foo.js`
table. -/
theorem c5_witness :
    findPage ("/missing".toList)
        (genPages (fun x => x) (fun _ => 0) 1 demoFooDir) = none :=
  c5_miss_returns_notfound ("/missing".toList)
    (genPages (fun x => x) (fun _ => 0) 1 demoFooDir) (by decide)

/-- Claim C6: the emitted descriptor table is obtained by processing a
permutation of the input directory that is sorted ascending by filename, so
the table order equals the compile-time ascending filename sort order. -/
theorem c6_table_in_ascending_filename_order :
    ∀ (deflate : List Nat → List Nat) (crc32 : List Nat → Nat) (mtime : Nat)
      (dir : List FileEntry),
      ∃ s : List FileEntry, s.Perm dir ∧ List.Sorted nameLe s ∧
        genPages deflate crc32 mtime dir
          = s.filterMap (compilePage deflate crc32 mtime) :=
  fun _ _ _ dir =>
    ⟨sortDir dir, List.perm_insertionSort nameLe dir,
      List.sorted_insertionSort nameLe dir, rfl⟩

/-- Claim C8: when the minified-asset directory is absent or empty, the
script leaves the previously generated artifacts unchanged, exits with
status 0, and prints a warning. -/
theorem c8_skip_preserves_artifacts :
    ∀ (deflate : List Nat → List Nat) (crc32 : List Nat → Nat) (mtime : Nat)
      (webExists : Bool) (dir : List FileEntry) (prev : Artifacts),
      (webExists = false ∨ dir = []) →
      runScript deflate crc32 mtime webExists dir prev = (prev, 0, true) := by
  intro d c t we dir prev h
  unfold runScript
  rw [if_pos h]

/-- Witness for C8: with the directory absent, previously generated
artifacts survive untouched. -/
theorem c8_witness :
    runScript (fun x => x) (fun _ => 0) 1 false demoFooDir
        (emitArtifacts (genPages (fun x => x) (fun _ => 0) 1 demoFooDir))
      = (emitArtifacts (genPages (fun x => x) (fun _ => 0) 1 demoFooDir),
          0, true) :=
  c8_skip_preserves_artifacts (fun x => x) (fun _ => 0) 1 false demoFooDir
    (emitArtifacts (genPages (fun x => x) (fun _ => 0) 1 demoFooDir))
    (Or.inl rfl)

/-- Counterexample to claim C3 as stated: the filename `app.nogzx.js`
carries the opt-out marker string `.nogz` (the string the URL derivation
removes: its URL becomes `/appx.js`), yet its gzip flag is true, because
the flag test requires the marker with a dot on both sides. -/
theorem c3_counterexample :
    containsSub (".nogz".toList) (("app.nogzx.js").toList) = true ∧
    containsSub (".nogz.".toList) (("app.nogzx.js").toList) = false ∧
    gzipEnabledOf (("app.nogzx.js").toList) = true ∧
    urlOf (("app.nogzx.js").toList) = ("/appx.js").toList := by decide

/-- Claim C3 (amended): `index.html` maps to URL `/`; every other filename
maps to `/` plus the filename with every occurrence of `.nogz` removed; the
gzip flag is false exactly when the filename contains `.nogz.` (the marker
delimited by dots on both sides); in particular `style.css` maps to
`/style.css`, `app.nogz.js` maps to `/app.js` with gzip false, and `app.js`
maps to `/app.js` with gzip true. -/
theorem c3_url_mapping_amended :
    urlOf (("index.html").toList) = ("/").toList ∧
    (∀ name, name ≠ ("index.html").toList →
        urlOf name = '/' :: replaceAll (".nogz".toList) [] name) ∧
    (∀ name, gzipEnabledOf name = false ↔
        containsSub (".nogz.".toList) name = true) ∧
    urlOf (("style.css").toList) = ("/style.css").toList ∧
    (urlOf (("app.nogz.js").toList) = ("/app.js").toList ∧
      gzipEnabledOf (("app.nogz.js").toList) = false) ∧
    urlOf (("app.js").toList) = ("/app.js").toList ∧
    gzipEnabledOf (("app.js").toList) = true := by
  refine ⟨by decide, ?_, ?_, by decide, by decide, by decide, by decide⟩
  · intro name h
    unfold urlOf
    rw [if_neg h]
  · intro name
    unfold gzipEnabledOf is_nogz
    cases containsSub (".nogz.".toList) name <;> simp

/-- Witness for C3 at `style.css`: the generic URL equation applies. -/
theorem c3_witness :
    urlOf (("style.css").toList)
      = '/' :: replaceAll (".nogz".toList) [] (("style.css").toList) :=
  c3_url_mapping_amended.2.1 (("style.css").toList) (by decide)

/-- Claim C4: when inflate inverts deflate (the zlib contract), every
gzip-enabled descriptor's stored bytes decompress back to the raw input
bytes, and every opted-out descriptor stores the raw bytes unchanged. -/
theorem c4_roundtrip :
    ∀ (deflate inflate : List Nat → List Nat) (crc32 : List Nat → Nat)
      (mtime : Nat),
      (∀ x, inflate (deflate x) = x) →
      ∀ (e : FileEntry) (p : Page),
        compilePage deflate crc32 mtime e = some p →
        (p.gzip = true → gzipDecompress inflate p.data = e.content) ∧
        (p.gzip = false → p.data = e.content) := by
  intro d inf c t hinv e p hp
  obtain ⟨-, -, -, hgz, hdata, -⟩ := compilePage_some hp
  constructor
  · intro hg
    have hgE : gzipEnabledOf e.name = true := by rw [← hgz]; exact hg
    rw [hdata, if_pos hgE]
    unfold gzipDecompress
    rw [gzipPayload_compress]
    exact hinv e.content
  · intro hg
    have hgE : gzipEnabledOf e.name = false := by rw [← hgz]; exact hg
    rw [hdata, if_neg (by simp [hgE])]

/-- Witness for C4: with identity deflate/inflate and zero CRC, the stored
bytes of the compiled `app.js` descriptor decompress to the raw content. -/
theorem c4_witness :
    gzipDecompress (fun x => x) demoPage.data = demoEntry.content :=
  (c4_roundtrip (fun x => x) (fun x => x) (fun _ => 0) 1 (fun _ => rfl)
      demoEntry demoPage (by decide)).1 rfl

/-- Claim C7: a directory entry yields a descriptor exactly when it is a
file whose lower-cased extension is `.html`, `.css` or `.js`, carrying MIME
type `text/html`, `text/css` or `application/javascript` respectively; any
other entry yields no descriptor and no error. -/
theorem c7_extension_filter :
    ∀ (deflate : List Nat → List Nat) (crc32 : List Nat → Nat) (mtime : Nat)
      (e : FileEntry),
      match compilePage deflate crc32 mtime e with
      | some p =>
          e.isFile = true ∧
          ((extOf e.name = (".html").toList ∧ p.mime = ("text/html").toList) ∨
           (extOf e.name = (".css").toList ∧ p.mime = ("text/css").toList) ∨
           (extOf e.name = (".js").toList ∧
             p.mime = ("application/javascript").toList))
      | none =>
          e.isFile = false ∨
          (extOf e.name ≠ (".html").toList ∧ extOf e.name ≠ (".css").toList ∧
           extOf e.name ≠ (".js").toList) := by
  intro d c t e
  cases hp : compilePage d c t e with
  | some p =>
    obtain ⟨hf, ⟨m, hm, hmime⟩, -, -, -, -⟩ := compilePage_some hp
    refine ⟨hf, ?_⟩
    rw [lookupMime_eq] at hm
    by_cases h1 : extOf e.name = (".html").toList
    · rw [if_pos h1] at hm
      injection hm with hm
      exact Or.inl ⟨h1, by rw [hmime, ← hm]⟩
    · rw [if_neg h1] at hm
      by_cases h2 : extOf e.name = (".css").toList
      · rw [if_pos h2] at hm
        injection hm with hm
        exact Or.inr (Or.inl ⟨h2, by rw [hmime, ← hm]⟩)
      · rw [if_neg h2] at hm
        by_cases h3 : extOf e.name = (".js").toList
        · rw [if_pos h3] at hm
          injection hm with hm
          exact Or.inr (Or.inr ⟨h3, by rw [hmime, ← hm]⟩)
        · rw [if_neg h3] at hm
          cases hm
  | none =>
    by_cases hf : e.isFile = false
    · exact Or.inl hf
    · refine Or.inr ?_
      unfold compilePage at hp
      rw [if_neg hf] at hp
      cases hm : lookupMime (extOf e.name) with
      | some m =>
        rw [hm] at hp
        exact absurd hp (by simp)
      | none =>
        rw [lookupMime_eq] at hm
        by_cases h1 : extOf e.name = (".html").toList
        · rw [if_pos h1] at hm; cases hm
        · rw [if_neg h1] at hm
          by_cases h2 : extOf e.name = (".css").toList
          · rw [if_pos h2] at hm; cases hm
          · rw [if_neg h2] at hm
            by_cases h3 : extOf e.name = (".js").toList
            · rw [if_pos h3] at hm; cases hm
            · exact ⟨h1, h2, h3⟩

/-- Witness for C7 at the concrete `app.js` entry: it qualifies as a file
with extension `.js` and gets MIME `application/javascript`. -/
theorem c7_witness :
    demoEntry.isFile = true ∧
    ((extOf demoEntry.name = (".html").toList ∧
        demoPage.mime = ("text/html").toList) ∨
     (extOf demoEntry.name = (".css").toList ∧
        demoPage.mime = ("text/css").toList) ∨
     (extOf demoEntry.name = (".js").toList ∧
        demoPage.mime = ("application/javascript").toList)) :=
  c7_extension_filter (fun x => x) (fun _ => 0) 1 demoEntry

/-- Claim C9: the opt-out test and the URL strip use different marker
strings: the gzip flag is disabled exactly on the dot-delimited `.nogz.`
infix, while URL derivation removes every `.nogz` occurrence; hence a
filename containing `.nogz` not followed by a dot stays compressed yet has
the substring removed from its URL. -/
theorem c9_marker_asymmetry :
    (∀ name, is_nogz name = containsSub (".nogz.".toList) name) ∧
    (∀ name, name ≠ ("index.html").toList →
        urlOf name = '/' :: replaceAll (".nogz".toList) [] name) ∧
    (∀ name, containsSub (".nogz".toList) name = true →
        containsSub (".nogz.".toList) name = false →
        gzipEnabledOf name = true ∧
        replaceAll (".nogz".toList) [] name ≠ name) := by
  refine ⟨fun _ => rfl, ?_, ?_⟩
  · intro name h
    unfold urlOf
    rw [if_neg h]
  · intro name hc hnc
    constructor
    · unfold gzipEnabledOf is_nogz
      rw [hnc]
      rfl
    · intro heq
      have hlt := replaceAll_nil_lt (by decide) hc
      rw [heq] at hlt
      exact Nat.lt_irrefl _ hlt

/-- Witness for C9 at `a.nogzb.js`: `.nogz` occurs without a trailing dot,
the asset stays compressed, and the URL still loses the substring. -/
theorem c9_witness :
    containsSub (".nogz".toList) (("a.nogzb.js").toList) = true ∧
    containsSub (".nogz.".toList) (("a.nogzb.js").toList) = false ∧
    gzipEnabledOf (("a.nogzb.js").toList) = true ∧
    replaceAll (".nogz".toList) [] (("a.nogzb.js").toList)
      ≠ ("a.nogzb.js").toList :=
  ⟨by decide, by decide,
    (c9_marker_asymmetry.2.2 (("a.nogzb.js").toList) (by decide) (by decide)).1,
    (c9_marker_asymmetry.2.2 (("a.nogzb.js").toList) (by decide) (by decide)).2⟩

/-- Claim C10: every emitted length constant equals the byte count of the
emitted data array; each router-table row references the data symbol and the
length constant of the same asset; for compressed descriptors the recorded
length is the compressed size, for opted-out descriptors the raw size. -/
theorem c10_len_consistency :
    ∀ (deflate : List Nat → List Nat) (crc32 : List Nat → Nat) (mtime : Nat)
      (dir : List FileEntry),
      (∀ a ∈ emitAssets (genPages deflate crc32 mtime dir),
          a.lenConst = a.bytes.length) ∧
      List.Forall₂ (fun (a : EmittedAsset) (r : RouterRow) =>
          r.dataSym = a.symbol ∧ r.lenSym = a.symbol ++ ("_LEN").toList ∧
          a.lenConst = a.bytes.length)
        (emitAssets (genPages deflate crc32 mtime dir))
        (emitRouter (genPages deflate crc32 mtime dir)) ∧
      (∀ (e : FileEntry) (p : Page),
          compilePage deflate crc32 mtime e = some p →
          p.len = p.data.length ∧
          (p.gzip = true →
            p.len = (gzipCompress deflate crc32 mtime e.content).length) ∧
          (p.gzip = false → p.len = e.content.length)) := by
  intro d c t dir
  refine ⟨?_, ?_, ?_⟩
  · intro a ha
    unfold emitAssets at ha
    obtain ⟨p, hp, hpa⟩ := List.mem_map.mp ha
    rw [← hpa]
    exact genPages_mem_len hp
  · exact emit_forall₂ _ (fun p hp => genPages_mem_len hp)
  · intro e p hp
    obtain ⟨-, -, -, hgz, hdata, hlen⟩ := compilePage_some hp
    refine ⟨hlen, ?_, ?_⟩
    · intro hg
      have hgE : gzipEnabledOf e.name = true := by rw [← hgz]; exact hg
      rw [hlen, hdata, if_pos hgE]
    · intro hg
      have hgE : gzipEnabledOf e.name = false := by rw [← hgz]; exact hg
      rw [hlen, hdata, if_neg (by simp [hgE])]

/-- Witness for C10 at the concrete `app.js` entry with identity deflate:
the recorded length is the stored (compressed) byte count. -/
theorem c10_witness :
    demoPage.len = demoPage.data.length ∧
    demoPage.len = (gzipCompress (fun x => x) (fun _ => 0) 1
        demoEntry.content).length :=
  ⟨((c10_len_consistency (fun x => x) (fun _ => 0) 1 []).2.2 demoEntry demoPage
      (by decide)).1,
    ((c10_len_consistency (fun x => x) (fun _ => 0) 1 []).2.2 demoEntry demoPage
      (by decide)).2.1 rfl⟩
